import Mathlib

/-!
Shallow embedding of the AI-agent consensus decision system
(`src/index.js`): agent registry, proposal store, vote validation,
weighted tally, consensus evaluation and decision finalization.

Modelling conventions:
* JavaScript `Map`s become insertion-ordered association lists
  (`List (String × α)`) with JS `set`/`get`/`has` semantics.
* JS numbers become `Rat` (no floating-point rounding is relevant to
  the quantities handled here: weights, thresholds and small indices).
* Heterogeneous JS vote values become the inductive `JsVal`; array
  votes (`multi`/`ranked` ballots) are modelled as arrays of numbers,
  and `undefined` (index of an empty array ballot) as `JsVal.undef`.
* JS object keys used for per-option buckets in `countVotes` are
  modelled by the vote-index value itself (`JsVal` equality).
* `Date.now()` becomes an explicit `now : Nat` argument threaded into
  every operation.
* Truthiness: `agent?.weight || 1.0` is `1` exactly when the lookup
  fails or the stored weight is `0` (the only falsy `Rat` value).
-/

/-- A JavaScript value as used for votes: strings, booleans, numbers,
arrays of numbers, and `undefined`. -/
inductive JsVal where
  | str (s : String)
  | jsbool (b : Bool)
  | num (n : Rat)
  | arr (l : List Rat)
  | undef
deriving DecidableEq, Repr

/-- JS `Map.prototype.set`: replace the first binding of the key in
place, or append a fresh binding at the end (insertion order). -/
def mapSet {α : Type} : List (String × α) → String → α → List (String × α)
  | [], k, v => [(k, v)]
  | (k', v') :: rest, k, v =>
      if k' = k then (k, v) :: rest else (k', v') :: mapSet rest k v

/-- JS `Map.prototype.get`. -/
def mapGet {α : Type} : List (String × α) → String → Option α
  | [], _ => none
  | (k', v') :: rest, k => if k' = k then some v' else mapGet rest k

/-- JS `Map.prototype.has`. -/
def mapHas {α : Type} (m : List (String × α)) (k : String) : Bool :=
  (mapGet m k).isSome

/-- Keys of an association list, in insertion order. -/
def keysOf {α : Type} (m : List (String × α)) : List String :=
  m.map Prod.fst

/-- An agent profile (src/index.js lines 33-43). -/
structure Agent where
  id : String
  name : String
  role : String
  weight : Rat
  reputation : Int
  participatedDecisions : Nat
  agreedDecisions : Nat
  disagreedDecisions : Nat
  joinedAt : Nat
deriving DecidableEq, Repr

/-- Proposal status strings: `voting`, `accepted`, `rejected`, `expired`. -/
inductive Status where
  | voting
  | accepted
  | rejected
  | expired
deriving DecidableEq, Repr

/-- A recorded vote (src/index.js lines 115-119). -/
structure VoteRecord where
  vote : JsVal
  comment : String
  timestamp : Nat
deriving DecidableEq, Repr

/-- A comment on a proposal (src/index.js lines 386-391). -/
structure CommentRecord where
  agentId : String
  agentName : String
  comment : String
  timestamp : Nat
deriving DecidableEq, Repr

/-- A proposal (src/index.js lines 61-74). The type is kept as a raw
string, exactly as in the source, so that unrecognized types are
representable. -/
structure Proposal where
  id : String
  title : String
  description : String
  options : List String
  ptype : String
  creator : String
  status : Status
  createdAt : Nat
  deadline : Nat
  votes : List (String × VoteRecord)
  comments : List CommentRecord
  requiredConsensus : Rat
deriving DecidableEq, Repr

/-- System configuration (src/index.js lines 18-23). -/
structure Config where
  minAgents : Nat
  voteDeadline : Nat
  consensusThreshold : Rat
  requireVeto : Bool
deriving DecidableEq, Repr

/-- The result object of `countVotes` (src/index.js lines 303-307):
`yes`/`no`/`abstain` buckets for `yesno` proposals, per-option-index
buckets (`idxCounts`, each entry carrying a raw count and a weighted
count) for `single`/`multi`, and the flat per-agent breakdown. -/
structure CountResults where
  yesCount : Nat
  noCount : Nat
  abstainCount : Nat
  yesW : Rat
  noW : Rat
  abstainW : Rat
  idxCounts : List (JsVal × Nat × Rat)
  breakdown : List (String × String × JsVal × Rat)
deriving DecidableEq, Repr

/-- A finalized decision record (src/index.js lines 262-272). -/
structure Decision where
  id : String
  proposalId : String
  title : String
  description : String
  result : Status
  results : CountResults
  participants : List String
  decidedAt : Nat
  consensusRatio : Rat
deriving DecidableEq, Repr

/-- The whole system state (`ConsensusDecisionSystem` fields,
src/index.js lines 9-27). -/
structure Sys where
  agents : List (String × Agent)
  proposals : List (String × Proposal)
  decisions : List (String × Decision)
  votesLog : List (String × VoteRecord)
  consensusHistory : List Decision
  config : Config
  proposalIdCounter : Nat
  decisionIdCounter : Nat
deriving DecidableEq, Repr

/-- Fresh system (constructor, src/index.js lines 9-27). -/
def initSystem (cfg : Config) : Sys :=
  ⟨[], [], [], [], [], cfg, 1, 1⟩

/-- Effective weight `agent?.weight || 1.0` (src/index.js lines 196-197, 320-321):
the registered weight unless the agent is missing or its stored weight
is `0` (falsy), in which case `1`. -/
def effWeight (sys : Sys) (agentId : String) : Rat :=
  match mapGet sys.agents agentId with
  | some a => if a.weight = 0 then 1 else a.weight
  | none => 1

/-- The yes-vote literal test `vote === 'yes' || vote === true || vote === 0`,
repeated verbatim at src/index.js lines 202, 284 and 363. -/
def isYesLit (v : JsVal) : Prop :=
  v = .str "yes" ∨ v = .jsbool true ∨ v = .num 0

instance (v : JsVal) : Decidable (isYesLit v) := by
  unfold isYesLit; infer_instance

/-- The no-vote literal test `vote === 'no' || vote === false || vote === 1`
(src/index.js line 205). -/
def isNoLit (v : JsVal) : Prop :=
  v = .str "no" ∨ v = .jsbool false ∨ v = .num 1

instance (v : JsVal) : Decidable (isNoLit v) := by
  unfold isNoLit; infer_instance

/-- The multi-vote yes test `Array.isArray(vote) && vote.includes(0)`
(src/index.js line 214). -/
def isMultiYes (v : JsVal) : Prop :=
  match v with
  | .arr l => (0 : Rat) ∈ l
  | _ => False

instance : DecidablePred isMultiYes := fun v =>
  match v with
  | .str _ => isFalse (fun h => h)
  | .jsbool _ => isFalse (fun h => h)
  | .num _ => isFalse (fun h => h)
  | .arr l => (inferInstance : Decidable ((0 : Rat) ∈ l))
  | .undef => isFalse (fun h => h)

/-- The `countVotes` yes test `vote === 'yes' || vote === true`
(src/index.js line 332) — note: no numeric `0` here. -/
def isCvYes (v : JsVal) : Prop :=
  v = .str "yes" ∨ v = .jsbool true

instance (v : JsVal) : Decidable (isCvYes v) := by
  unfold isCvYes; infer_instance

/-- The `countVotes` no test `vote === 'no' || vote === false`
(src/index.js line 335). -/
def isCvNo (v : JsVal) : Prop :=
  v = .str "no" ∨ v = .jsbool false

instance (v : JsVal) : Decidable (isCvNo v) := by
  unfold isCvNo; infer_instance

/-- Running totals of the `checkConsensus` vote loop. -/
structure Tally where
  yesVotes : Nat
  noVotes : Nat
  abstainVotes : Nat
  yesWeight : Rat
  noWeight : Rat
  abstainWeight : Rat
deriving DecidableEq, Repr

/-- All-zero tally. -/
def Tally.zero : Tally := ⟨0, 0, 0, 0, 0, 0⟩

/-- One iteration of the vote loop in `checkConsensus`
(src/index.js lines 195-222): `yesno`/`single` votes bucket on the
literals `"yes"`/`true`/`0` then `"no"`/`false`/`1` then abstain;
`multi` votes bucket on whether the array contains `0`; votes of any
other proposal type are not counted at all. -/
def tallyAdd (sys : Sys) (ptype : String) (t : Tally) (aid : String) (vr : VoteRecord) :
    Tally :=
  let w := effWeight sys aid
  let v := vr.vote
  if ptype = "yesno" ∨ ptype = "single" then
    if isYesLit v then
      { t with yesVotes := t.yesVotes + 1, yesWeight := t.yesWeight + w }
    else if isNoLit v then
      { t with noVotes := t.noVotes + 1, noWeight := t.noWeight + w }
    else
      { t with abstainVotes := t.abstainVotes + 1, abstainWeight := t.abstainWeight + w }
  else if ptype = "multi" then
    if isMultiYes v then
      { t with yesVotes := t.yesVotes + 1, yesWeight := t.yesWeight + w }
    else
      { t with noVotes := t.noVotes + 1, noWeight := t.noWeight + w }
  else t

/-- The `checkConsensus` vote loop, processing votes in insertion order. -/
def tallyAux (sys : Sys) (ptype : String) : List (String × VoteRecord) → Tally → Tally
  | [], t => t
  | (aid, vr) :: rest, t => tallyAux sys ptype rest (tallyAdd sys ptype t aid vr)

/-- Weighted tally of a proposal's recorded votes (src/index.js
lines 186-222). -/
def tallyVotes (sys : Sys) (p : Proposal) : Tally :=
  tallyAux sys p.ptype p.votes Tally.zero

/-- The status object returned by `checkConsensus`: either the early
"insufficient votes" result (src/index.js line 183) or the full
evaluated status (lines 228-239). -/
inductive ConsensusStatus where
  | insufficient
  | evaluated (totalVotes totalAgents yesVotes noVotes abstainVotes : Nat)
      (yesWeight noWeight yesRatio : Rat) (reached : Bool)
deriving DecidableEq, Repr

/-- The `reached` field of a consensus status. -/
def ConsensusStatus.isReached : ConsensusStatus → Bool
  | .insufficient => false
  | .evaluated _ _ _ _ _ _ _ _ r => r

/-- Result of `validateVote` (src/index.js lines 139-173). -/
inductive Validation where
  | ok
  | err (msg : String)
deriving DecidableEq, Repr

/-- Vote validation (src/index.js lines 139-173): `single` bounds-checks
only numeric votes; `multi`/`ranked` require an array; `yesno` requires
one of the four yes/no literals; any other proposal type falls through
the `switch` and is accepted. -/
def validateVote (p : Proposal) (v : JsVal) : Validation :=
  if p.ptype = "single" then
    match v with
    | .num n => if n < 0 ∨ (p.options.length : Rat) ≤ n then .err "无效的选项索引" else .ok
    | _ => .ok
  else if p.ptype = "multi" then
    match v with
    | .arr _ => .ok
    | _ => .err "多选投票需要数组"
  else if p.ptype = "ranked" then
    match v with
    | .arr _ => .ok
    | _ => .err "排序投票需要数组"
  else if p.ptype = "yesno" then
    if v = .str "yes" ∨ v = .str "no" ∨ v = .jsbool true ∨ v = .jsbool false then .ok
    else .err "是/否投票需要 yes/no 或 true/false"
  else .ok

/-- The vote-index key used by `countVotes` for `single`/`multi`
proposals (src/index.js line 343): the first element of an array vote,
or the vote value itself. -/
def voteIndex : JsVal → JsVal
  | .arr [] => .undef
  | .arr (x :: _) => .num x
  | v => v

/-- Bump a per-option bucket: `counts[k] = (counts[k] || 0) + 1` and
`weightedCounts[k] = (weightedCounts[k] || 0) + weight`
(src/index.js lines 344-345). -/
def bumpIdx : List (JsVal × Nat × Rat) → JsVal → Rat → List (JsVal × Nat × Rat)
  | [], k, w => [(k, 1, w)]
  | (k', c, ws) :: rest, k, w =>
      if k' = k then (k, c + 1, ws + w) :: rest
      else (k', c, ws) :: bumpIdx rest k w

/-- Initial `results` object of `countVotes` (src/index.js
lines 303-317): `yes`/`no`/`abstain` buckets for `yesno`, zeroed
per-option buckets when the proposal has options, empty otherwise. -/
def cvInit (p : Proposal) : CountResults :=
  if p.ptype = "yesno" then ⟨0, 0, 0, 0, 0, 0, [], []⟩
  else if 0 < p.options.length then
    ⟨0, 0, 0, 0, 0, 0, (List.range p.options.length).map (fun i => (JsVal.num i, 0, 0)), []⟩
  else ⟨0, 0, 0, 0, 0, 0, [], []⟩

/-- One iteration of the `countVotes` loop (src/index.js
lines 319-349).  Note the `yesno` bucketing here tests only
`"yes"`/`true` and `"no"`/`false` (numeric `0`/`1` fall to abstain),
unlike the `checkConsensus` loop. -/
def cvStep (sys : Sys) (ptype : String) (acc : CountResults) (aid : String)
    (vr : VoteRecord) : CountResults :=
  let w := effWeight sys aid
  let nm := match mapGet sys.agents aid with
    | some a => a.name
    | none => "Unknown"
  let acc1 :=
    if ptype = "yesno" then
      if isCvYes vr.vote then
        { acc with yesCount := acc.yesCount + 1, yesW := acc.yesW + w }
      else if isCvNo vr.vote then
        { acc with noCount := acc.noCount + 1, noW := acc.noW + w }
      else
        { acc with abstainCount := acc.abstainCount + 1, abstainW := acc.abstainW + w }
    else if ptype = "single" ∨ ptype = "multi" then
      { acc with idxCounts := bumpIdx acc.idxCounts (voteIndex vr.vote) w }
    else acc
  { acc1 with breakdown := acc1.breakdown ++ [(aid, nm, vr.vote, w)] }

/-- The `countVotes` loop, processing votes in insertion order. -/
def cvAux (sys : Sys) (ptype : String) : List (String × VoteRecord) → CountResults →
    CountResults
  | [], acc => acc
  | (aid, vr) :: rest, acc => cvAux sys ptype rest (cvStep sys ptype acc aid vr)

/-- Full tally `countVotes` (src/index.js lines 302-352). -/
def countVotes (sys : Sys) (p : Proposal) : CountResults :=
  cvAux sys p.ptype p.votes (cvInit p)

/-- Consensus ratio (src/index.js lines 357-371, `calculateConsensusRatio`): fraction of
recorded votes bucketed yes (for `yesno`/`single`), over the number of
votes cast. -/
def calculateConsensusRatio (p : Proposal) : Rat :=
  let yes := (p.votes.filter (fun av =>
    (p.ptype = "yesno" ∨ p.ptype = "single") ∧ isYesLit av.2.vote)).length
  if 0 < p.votes.length then (yes : Rat) / (p.votes.length : Rat) else 0

/-- Counter update for one voting agent at finalization
(src/index.js lines 277-291): `participatedDecisions` always, and for
`yesno`/`single` proposals `agreedDecisions` on a yes-bucketed vote,
`disagreedDecisions` otherwise. -/
def creditAgent (ptype : String) (ags : List (String × Agent)) (aid : String)
    (vr : VoteRecord) : List (String × Agent) :=
  match mapGet ags aid with
  | none => ags
  | some a =>
    let a1 := { a with participatedDecisions := a.participatedDecisions + 1 }
    let a2 :=
      if ptype = "yesno" ∨ ptype = "single" then
        if isYesLit vr.vote then
          { a1 with agreedDecisions := a1.agreedDecisions + 1 }
        else
          { a1 with disagreedDecisions := a1.disagreedDecisions + 1 }
      else a1
    mapSet ags aid a2

/-- The agent-statistics loop of `finalizeDecision`. -/
def creditAgents (ptype : String) : List (String × Agent) → List (String × VoteRecord) →
    List (String × Agent)
  | ags, [] => ags
  | ags, (aid, vr) :: rest => creditAgents ptype (creditAgent ptype ags aid vr) rest

/-- Decision finalization (src/index.js lines 256-297): mint a fresh
decision id, snapshot the tallies into a `Decision`, store it, append
it to the history, and update each voting agent's counters.  There is
no guard against running more than once for the same proposal. -/
def finalizeDecision (sys : Sys) (pid : String) (now : Nat) : Sys :=
  match mapGet sys.proposals pid with
  | none => sys
  | some p =>
    let decisionId := "decision_" ++ toString sys.decisionIdCounter
    let d : Decision := ⟨decisionId, p.id, p.title, p.description, p.status,
      countVotes sys p, keysOf p.votes, now, calculateConsensusRatio p⟩
    { sys with
      decisionIdCounter := sys.decisionIdCounter + 1,
      decisions := mapSet sys.decisions decisionId d,
      consensusHistory := sys.consensusHistory ++ [d],
      agents := creditAgents p.ptype sys.agents p.votes }

/-- Consensus evaluation (src/index.js lines 178-251): below `minAgents`
votes, report insufficient with no state change; otherwise compute the
weighted tally, `yesRatio = yesWeight / totalAgents` (
`0` when the total vote weight is not positive), accept and finalize
when the ratio meets the proposal's required consensus, reject and
finalize when past the deadline, and leave the state unchanged
otherwise.  The source never checks the proposal's current status
here. -/
def checkConsensus (sys : Sys) (pid : String) (now : Nat) : Sys × ConsensusStatus :=
  match mapGet sys.proposals pid with
  | none => (sys, .insufficient)
  | some p =>
    let totalVotes := p.votes.length
    let totalAgents := sys.agents.length
    if totalVotes < sys.config.minAgents then
      (sys, .insufficient)
    else
      let t := tallyVotes sys p
      let totalWeight := t.yesWeight + t.noWeight + t.abstainWeight
      let yesRatio := if 0 < totalWeight then t.yesWeight / (totalAgents : Rat) else 0
      let reached := decide (p.requiredConsensus ≤ yesRatio)
      let st := ConsensusStatus.evaluated totalVotes totalAgents t.yesVotes t.noVotes
        t.abstainVotes t.yesWeight t.noWeight yesRatio reached
      if p.requiredConsensus ≤ yesRatio then
        let sys1 := { sys with
          proposals := mapSet sys.proposals pid { p with status := .accepted } }
        (finalizeDecision sys1 pid now, st)
      else if p.deadline < now then
        let sys1 := { sys with
          proposals := mapSet sys.proposals pid { p with status := .rejected } }
        (finalizeDecision sys1 pid now, st)
      else
        (sys, st)

/-- Result object of `vote` (src/index.js lines 88-134), restricted to
the fields the specification talks about. -/
structure VoteResult where
  success : Bool
  error : Option String
  consensusStatus : Option ConsensusStatus
deriving DecidableEq, Repr

/-- Vote submission (src/index.js lines 88-134): registered-agent check,
proposal-existence check, status check, deadline check (which stamps
the proposal `expired`), vote validation, then record the vote and
re-evaluate consensus. -/
def vote (sys : Sys) (agentId pid : String) (v : JsVal) (comment : String) (now : Nat) :
    Sys × VoteResult :=
  if ¬ mapHas sys.agents agentId then
    (sys, ⟨false, some "Agent未注册", none⟩)
  else
    match mapGet sys.proposals pid with
    | none => (sys, ⟨false, some "提案不存在", none⟩)
    | some p =>
      if p.status ≠ .voting then
        (sys, ⟨false, some "提案不在投票中", none⟩)
      else if p.deadline < now then
        ({ sys with proposals := mapSet sys.proposals pid { p with status := .expired } },
         ⟨false, some "投票已截止", none⟩)
      else
        match validateVote p v with
        | .err msg => (sys, ⟨false, some msg, none⟩)
        | .ok =>
          let vr : VoteRecord := ⟨v, comment, now⟩
          let sys1 := { sys with
            proposals := mapSet sys.proposals pid { p with votes := mapSet p.votes agentId vr },
            votesLog := mapSet sys.votesLog (pid ++ "_" ++ agentId) vr }
          let r := checkConsensus sys1 pid now
          (r.1, ⟨true, none, some r.2⟩)

/-- Agent registration (src/index.js lines 32-50): unconditionally store a
fresh profile (reputation 100, all counters zero) under the id and
report success. -/
def registerAgent (sys : Sys) (agentId agentName role : String) (weight : Rat)
    (now : Nat) : Sys × Bool :=
  let a : Agent := ⟨agentId, agentName, role, weight, 100, 0, 0, 0, now⟩
  ({ sys with agents := mapSet sys.agents agentId a }, true)

/-- Proposal creation (src/index.js lines 55-83). -/
def createProposal (sys : Sys) (agentId title description : String) (options : List String)
    (ptype : String) (now : Nat) : Sys × Option String :=
  if ¬ mapHas sys.agents agentId then (sys, none)
  else
    let pid := "prop_" ++ toString sys.proposalIdCounter
    let p : Proposal := ⟨pid, title, description, options, ptype, agentId, .voting, now,
      now + sys.config.voteDeadline, [], [], sys.config.consensusThreshold⟩
    let props := mapSet sys.proposals pid p
    ({ sys with proposalIdCounter := sys.proposalIdCounter + 1, proposals := props },
     some pid)

/-- Agent display name (src/index.js lines 492-494). -/
def getAgentName (sys : Sys) (agentId : String) : String :=
  match mapGet sys.agents agentId with
  | some a => a.name
  | none => "Unknown"

/-- Comment submission (src/index.js lines 376-394). -/
def addComment (sys : Sys) (agentId pid comment : String) (now : Nat) : Sys × Bool :=
  if ¬ mapHas sys.agents agentId then (sys, false)
  else
    match mapGet sys.proposals pid with
    | none => (sys, false)
    | some p =>
      let c : CommentRecord := ⟨agentId, getAgentName sys agentId, comment, now⟩
      let p1 := { p with comments := p.comments ++ [c] }
      ({ sys with proposals := mapSet sys.proposals pid p1 }, true)

/-- The strategy layer's `getVoteSuggestion` (src/index.js
lines 547-576) re-runs `checkConsensus` on the stored proposal without
any status guard; only the state effect and the returned status are
modelled. -/
def getVoteSuggestion (sys : Sys) (pid : String) (now : Nat) : Sys × Option ConsensusStatus :=
  match mapGet sys.proposals pid with
  | none => (sys, none)
  | some _ =>
    let r := checkConsensus sys pid now
    (r.1, some r.2)

/-- The state-mutating operations of the system.  Read-only queries
(`listProposals`, `getDecisionHistory`, `getLeaderboard`,
`getConsensusStats`, `formatProposal`, `getSummary` and the advisory
analyses) copy state and never write it, so they are not steps;
`suggest` is the strategy layer's `getVoteSuggestion`, the one
external entry point that re-runs `checkConsensus`. -/
inductive Op where
  | register (agentId agentName role : String) (weight : Rat)
  | create (agentId title description : String) (options : List String) (ptype : String)
  | castVote (agentId pid : String) (v : JsVal) (comment : String)
  | comment (agentId pid : String) (text : String)
  | suggest (pid : String)
deriving DecidableEq, Repr

/-- Apply one operation at wall-clock time `now`. -/
def step (sys : Sys) (op : Op) (now : Nat) : Sys :=
  match op with
  | .register a n r w => (registerAgent sys a n r w now).1
  | .create a t d o ty => (createProposal sys a t d o ty now).1
  | .castVote a p v c => (vote sys a p v c now).1
  | .comment a p c => (addComment sys a p c now).1
  | .suggest p => (getVoteSuggestion sys p now).1

/-- Run a list of timestamped operations from a state. -/
def run (sys : Sys) : List (Op × Nat) → Sys
  | [] => sys
  | (op, now) :: rest => run (step sys op now) rest

/-! ### Association-list lemmas -/

theorem mapGet_mapSet_self {α : Type} (m : List (String × α)) (k : String) (v : α) :
    mapGet (mapSet m k v) k = some v := by
  induction m with
  | nil => simp [mapSet, mapGet]
  | cons hd tl ih =>
    obtain ⟨k', v'⟩ := hd
    by_cases h : k' = k <;> simp [mapSet, mapGet, h, ih]

theorem mapGet_mapSet_ne {α : Type} (m : List (String × α)) (k k' : String) (v : α)
    (h : k' ≠ k) : mapGet (mapSet m k v) k' = mapGet m k' := by
  induction m with
  | nil => simp [mapSet, mapGet, Ne.symm h]
  | cons hd tl ih =>
    obtain ⟨k'', v''⟩ := hd
    by_cases hh : k'' = k <;> simp [mapSet, mapGet, hh, Ne.symm h, ih]

theorem mem_of_mapGet {α : Type} (m : List (String × α)) (k : String) (v : α)
    (h : mapGet m k = some v) : (k, v) ∈ m := by
  induction m with
  | nil => simp [mapGet] at h
  | cons hd tl ih =>
    obtain ⟨k', v'⟩ := hd
    by_cases hh : k' = k
    · subst hh
      simp [mapGet] at h
      subst h
      exact List.mem_cons_self _ _
    · simp [mapGet, hh] at h
      exact List.mem_cons_of_mem _ (ih h)

theorem mapGet_some_mem_keys {α : Type} (m : List (String × α)) (k : String) (v : α)
    (h : mapGet m k = some v) : k ∈ keysOf m := by
  have := mem_of_mapGet m k v h
  exact List.mem_map.mpr ⟨(k, v), this, rfl⟩

theorem mapHas_iff_mem_keys {α : Type} (m : List (String × α)) (k : String) :
    mapHas m k = true ↔ k ∈ keysOf m := by
  induction m with
  | nil => simp [mapHas, mapGet, keysOf]
  | cons hd tl ih =>
    obtain ⟨k', v'⟩ := hd
    by_cases h : k' = k
    · subst h
      simp [mapHas, mapGet, keysOf]
    · have h2 : ¬ k = k' := fun hh => h hh.symm
      simp only [mapHas, mapGet, if_neg h, keysOf, List.map_cons, List.mem_cons, h2,
        false_or]
      exact ih

theorem keysOf_mapSet {α : Type} (m : List (String × α)) (k : String) (v : α) :
    keysOf (mapSet m k v) = if k ∈ keysOf m then keysOf m else keysOf m ++ [k] := by
  induction m with
  | nil => simp [mapSet, keysOf]
  | cons hd tl ih =>
    obtain ⟨k', v'⟩ := hd
    by_cases h : k' = k
    · subst h
      simp [mapSet, keysOf]
    · simp only [mapSet, if_neg h, keysOf, List.map_cons] at ih ⊢
      by_cases hm : k ∈ keysOf tl
      · simp [keysOf] at hm
        simp [hm, ih, keysOf, Ne.symm h]
      · simp [keysOf] at hm
        simp [hm, ih, keysOf, Ne.symm h]

theorem mem_keysOf_mapSet {α : Type} (m : List (String × α)) (k k' : String) (v : α) :
    k' ∈ keysOf (mapSet m k v) ↔ k' ∈ keysOf m ∨ k' = k := by
  rw [keysOf_mapSet]
  by_cases h : k ∈ keysOf m
  · simp only [if_pos h]
    constructor
    · exact Or.inl
    · rintro (hh | hh)
      · exact hh
      · subst hh; exact h
  · simp [if_neg h]

theorem nodup_keysOf_mapSet {α : Type} (m : List (String × α)) (k : String) (v : α)
    (h : (keysOf m).Nodup) : (keysOf (mapSet m k v)).Nodup := by
  rw [keysOf_mapSet]
  by_cases hm : k ∈ keysOf m
  · simpa [if_pos hm]
  · simp only [if_neg hm]
    simp [List.nodup_append, h, hm]

theorem keysOf_mapSet_of_mem {α : Type} (m : List (String × α)) (k : String) (v : α)
    (h : k ∈ keysOf m) : keysOf (mapSet m k v) = keysOf m := by
  rw [keysOf_mapSet, if_pos h]

theorem length_le_of_nodup_subset (l1 l2 : List String) (h1 : l1.Nodup)
    (h2 : ∀ x ∈ l1, x ∈ l2) : l1.length ≤ l2.length := by
  have e1 : l1.toFinset.card = l1.length := List.toFinset_card_of_nodup h1
  have e2 : l2.toFinset.card ≤ l2.length := l2.toFinset_card_le
  have s : l1.toFinset ⊆ l2.toFinset := by
    intro x hx
    simp only [List.mem_toFinset] at hx ⊢
    exact h2 x hx
  have h3 := Finset.card_le_card s
  omega

/-! ### Spec-side weight sums -/

/-- The weight the specification assigns to a voter: the agent's
registered weight, or `1.0` when the voter is absent from the
registry. -/
def registeredWeight (sys : Sys) (aid : String) : Rat :=
  match mapGet sys.agents aid with
  | some a => a.weight
  | none => 1

/-- Sum of the effective (code-side) weights of a list of votes. -/
def weightSumBy (sys : Sys) (l : List (String × VoteRecord)) : Rat :=
  (l.map (fun av => effWeight sys av.1)).sum

/-- Sum of the spec-side registered weights of a list of votes. -/
def regWeightSumBy (sys : Sys) (l : List (String × VoteRecord)) : Rat :=
  (l.map (fun av => registeredWeight sys av.1)).sum

theorem effWeight_eq_registeredWeight (sys : Sys)
    (hw : ∀ e ∈ sys.agents, 0 < e.2.weight) (aid : String) :
    effWeight sys aid = registeredWeight sys aid := by
  unfold effWeight registeredWeight
  cases h : mapGet sys.agents aid with
  | none => rfl
  | some a =>
    have hm := mem_of_mapGet _ _ _ h
    have hpos := hw _ hm
    simp only []
    rw [if_neg (by exact ne_of_gt hpos)]

theorem effWeight_pos (sys : Sys) (hw : ∀ e ∈ sys.agents, 0 < e.2.weight)
    (aid : String) : 0 < effWeight sys aid := by
  unfold effWeight
  cases h : mapGet sys.agents aid with
  | none => exact one_pos
  | some a =>
    have hm := mem_of_mapGet _ _ _ h
    have hpos := hw _ hm
    simp only []
    by_cases hz : a.weight = 0
    · rw [if_pos hz]; exact one_pos
    · rw [if_neg hz]; exact hpos

theorem weightSumBy_eq_regWeightSumBy (sys : Sys)
    (hw : ∀ e ∈ sys.agents, 0 < e.2.weight) (l : List (String × VoteRecord)) :
    weightSumBy sys l = regWeightSumBy sys l := by
  unfold weightSumBy regWeightSumBy
  congr 1
  apply List.map_congr_left
  intro av _
  exact effWeight_eq_registeredWeight sys hw av.1

theorem weightSumBy_pos (sys : Sys) (hw : ∀ e ∈ sys.agents, 0 < e.2.weight)
    (l : List (String × VoteRecord)) (hne : l ≠ []) : 0 < weightSumBy sys l := by
  cases l with
  | nil => exact absurd rfl hne
  | cons hd tl =>
    unfold weightSumBy
    simp only [List.map_cons, List.sum_cons]
    have h1 := effWeight_pos sys hw hd.1
    have h2 : 0 ≤ (tl.map (fun av => effWeight sys av.1)).sum := by
      apply List.sum_nonneg
      intro x hx
      obtain ⟨av, _, rfl⟩ := List.mem_map.mp hx
      exact le_of_lt (effWeight_pos sys hw av.1)
    linarith

theorem isYesLit_not_isNoLit (v : JsVal) (h : isYesLit v) : ¬ isNoLit v := by
  rcases h with h | h | h <;> subst h <;> intro hn <;>
    rcases hn with hn | hn | hn <;> simp_all

theorem isCvYes_not_isCvNo (v : JsVal) (h : isCvYes v) : ¬ isCvNo v := by
  rcases h with h | h <;> subst h <;> intro hn <;>
    rcases hn with hn | hn <;> simp_all

theorem weightSumBy_nil (sys : Sys) : weightSumBy sys [] = 0 := rfl

theorem weightSumBy_cons (sys : Sys) (av : String × VoteRecord)
    (l : List (String × VoteRecord)) :
    weightSumBy sys (av :: l) = effWeight sys av.1 + weightSumBy sys l := by
  simp [weightSumBy]

theorem tallyAux_ys (sys : Sys) (tp : String) (h : tp = "yesno" ∨ tp = "single")
    (l : List (String × VoteRecord)) :
    ∀ t : Tally,
      tallyAux sys tp l t = ⟨
        t.yesVotes + (l.filter fun av => isYesLit av.2.vote).length,
        t.noVotes + (l.filter fun av => ¬ isYesLit av.2.vote ∧ isNoLit av.2.vote).length,
        t.abstainVotes +
          (l.filter fun av => ¬ isYesLit av.2.vote ∧ ¬ isNoLit av.2.vote).length,
        t.yesWeight + weightSumBy sys (l.filter fun av => isYesLit av.2.vote),
        t.noWeight +
          weightSumBy sys (l.filter fun av => ¬ isYesLit av.2.vote ∧ isNoLit av.2.vote),
        t.abstainWeight +
          weightSumBy sys (l.filter fun av => ¬ isYesLit av.2.vote ∧ ¬ isNoLit av.2.vote)⟩ := by
  induction l with
  | nil => intro t; simp [tallyAux, weightSumBy]
  | cons hd tl ih =>
    intro t
    obtain ⟨aid, vr⟩ := hd
    by_cases hy : isYesLit vr.vote
    · have hno := isYesLit_not_isNoLit _ hy
      simp only [tallyAux, tallyAdd, eq_true h, if_true]
      rw [if_pos hy, ih]
      simp only [Tally.mk.injEq]
      refine ⟨?_, ?_, ?_, ?_, ?_, ?_⟩ <;>
        simp [List.filter_cons, hy, hno, weightSumBy_cons] <;>
        first
        | omega
        | ring
    · by_cases hn : isNoLit vr.vote
      · simp only [tallyAux, tallyAdd, eq_true h, if_true]
        rw [if_neg hy, if_pos hn, ih]
        simp only [Tally.mk.injEq]
        refine ⟨?_, ?_, ?_, ?_, ?_, ?_⟩ <;>
          simp [List.filter_cons, hy, hn, weightSumBy_cons] <;>
          first
          | omega
          | ring
      · simp only [tallyAux, tallyAdd, eq_true h, if_true]
        rw [if_neg hy, if_neg hn, ih]
        simp only [Tally.mk.injEq]
        refine ⟨?_, ?_, ?_, ?_, ?_, ?_⟩ <;>
          simp [List.filter_cons, hy, hn, weightSumBy_cons] <;>
          first
          | omega
          | ring

theorem tallyAux_multi (sys : Sys) (l : List (String × VoteRecord)) :
    ∀ t : Tally,
      tallyAux sys "multi" l t = ⟨
        t.yesVotes + (l.filter fun av => isMultiYes av.2.vote).length,
        t.noVotes + (l.filter fun av => ¬ isMultiYes av.2.vote).length,
        t.abstainVotes,
        t.yesWeight + weightSumBy sys (l.filter fun av => isMultiYes av.2.vote),
        t.noWeight + weightSumBy sys (l.filter fun av => ¬ isMultiYes av.2.vote),
        t.abstainWeight⟩ := by
  induction l with
  | nil => intro t; simp [tallyAux, weightSumBy]
  | cons hd tl ih =>
    intro t
    obtain ⟨aid, vr⟩ := hd
    by_cases hm : isMultiYes vr.vote
    · simp only [tallyAux, tallyAdd, if_true]
      rw [if_pos hm, ih]
      simp only [Tally.mk.injEq]
      refine ⟨?_, ?_, ?_, ?_, ?_, ?_⟩ <;>
        simp [List.filter_cons, hm, weightSumBy_cons] <;>
        first
        | omega
        | ring
    · simp only [tallyAux, tallyAdd, if_true]
      rw [if_neg hm, ih]
      simp only [Tally.mk.injEq]
      refine ⟨?_, ?_, ?_, ?_, ?_, ?_⟩ <;>
        simp [List.filter_cons, hm, weightSumBy_cons] <;>
        first
        | omega
        | ring

theorem weightSum_partition (sys : Sys) (l : List (String × VoteRecord)) :
    weightSumBy sys (l.filter fun av => isYesLit av.2.vote)
      + weightSumBy sys (l.filter fun av => ¬ isYesLit av.2.vote ∧ isNoLit av.2.vote)
      + weightSumBy sys (l.filter fun av => ¬ isYesLit av.2.vote ∧ ¬ isNoLit av.2.vote)
      = weightSumBy sys l := by
  induction l with
  | nil => simp [weightSumBy]
  | cons hd tl ih =>
    by_cases hy : isYesLit hd.2.vote
    · have hno := isYesLit_not_isNoLit _ hy
      rw [List.filter_cons_of_pos (by simp [hy]),
        List.filter_cons_of_neg (by simp [hy]),
        List.filter_cons_of_neg (by simp [hy]), weightSumBy_cons, weightSumBy_cons]
      linarith [ih]
    · by_cases hn : isNoLit hd.2.vote
      · rw [List.filter_cons_of_neg (by simp [hy]),
          List.filter_cons_of_pos (by simp [hy, hn]),
          List.filter_cons_of_neg (by simp [hy, hn]), weightSumBy_cons, weightSumBy_cons]
        linarith [ih]
      · rw [List.filter_cons_of_neg (by simp [hy]),
          List.filter_cons_of_neg (by simp [hy, hn]),
          List.filter_cons_of_pos (by simp [hy, hn]), weightSumBy_cons, weightSumBy_cons]
        linarith [ih]

theorem finalizeDecision_proposals (sys : Sys) (pid : String) (now : Nat) :
    (finalizeDecision sys pid now).proposals = sys.proposals := by
  unfold finalizeDecision
  cases mapGet sys.proposals pid <;> rfl

theorem mapGet_mapSet_cases {α : Type} (m : List (String × α)) (k k' : String) (v w : α)
    (h : mapGet (mapSet m k v) k' = some w) :
    (k' = k ∧ w = v) ∨ (k' ≠ k ∧ mapGet m k' = some w) := by
  by_cases hk : k' = k
  · subst hk
    rw [mapGet_mapSet_self] at h
    exact Or.inl ⟨rfl, (Option.some_injective _ h).symm⟩
  · rw [mapGet_mapSet_ne _ _ _ _ hk] at h
    exact Or.inr ⟨hk, h⟩

theorem keysOf_creditAgent (tp : String) (ags : List (String × Agent)) (aid : String)
    (vr : VoteRecord) : keysOf (creditAgent tp ags aid vr) = keysOf ags := by
  unfold creditAgent
  cases h : mapGet ags aid with
  | none => rfl
  | some a =>
    exact keysOf_mapSet_of_mem _ _ _ (mapGet_some_mem_keys _ _ _ h)

theorem keysOf_creditAgents (tp : String) (l : List (String × VoteRecord)) :
    ∀ ags, keysOf (creditAgents tp ags l) = keysOf ags := by
  induction l with
  | nil => intro ags; rfl
  | cons hd rest ih =>
    intro ags
    obtain ⟨aid, vr⟩ := hd
    show keysOf (creditAgents tp (creditAgent tp ags aid vr) rest) = keysOf ags
    rw [ih, keysOf_creditAgent]

theorem finalizeDecision_agents_keys (sys : Sys) (pid : String) (now : Nat) :
    keysOf (finalizeDecision sys pid now).agents = keysOf sys.agents := by
  unfold finalizeDecision
  cases h : mapGet sys.proposals pid with
  | none => rfl
  | some p => exact keysOf_creditAgents _ _ _

/-- The reachability invariant behind C8: every stored proposal has
distinct voter keys, all of which are registered agent keys. -/
def InvS (sys : Sys) : Prop :=
  ∀ pid p, mapGet sys.proposals pid = some p →
    (keysOf p.votes).Nodup ∧ ∀ a ∈ keysOf p.votes, a ∈ keysOf sys.agents

theorem InvS_registerAgent (sys : Sys) (aid nm rl : String) (w : Rat) (now : Nat)
    (h : InvS sys) : InvS (registerAgent sys aid nm rl w now).1 := by
  intro pid p hget
  obtain ⟨h1, h2⟩ := h pid p hget
  refine ⟨h1, fun a ha => ?_⟩
  exact (mem_keysOf_mapSet _ _ _ _).mpr (Or.inl (h2 a ha))

theorem InvS_createProposal (sys : Sys) (aid t d : String) (o : List String) (ty : String)
    (now : Nat) (h : InvS sys) : InvS (createProposal sys aid t d o ty now).1 := by
  unfold createProposal
  split
  · exact h
  · intro pid p hget
    rcases mapGet_mapSet_cases _ _ _ _ _ hget with ⟨heq, rfl⟩ | ⟨hne, hget'⟩
    · exact ⟨List.nodup_nil, by intro a ha; simp [keysOf] at ha⟩
    · exact h pid p hget'

theorem InvS_setStatus_finalize (sys : Sys) (pid : String) (p : Proposal) (st : Status)
    (now : Nat) (h : InvS sys) (hg : mapGet sys.proposals pid = some p) :
    InvS (finalizeDecision
      { sys with proposals := mapSet sys.proposals pid { p with status := st } } pid now) := by
  intro pid' q hget'
  rw [finalizeDecision_proposals] at hget'
  have hag := finalizeDecision_agents_keys
    { sys with proposals := mapSet sys.proposals pid { p with status := st } } pid now
  rcases mapGet_mapSet_cases _ _ _ _ _ hget' with ⟨heq, rfl⟩ | ⟨hne, hget''⟩
  · obtain ⟨h1, h2⟩ := h pid p hg
    exact ⟨h1, fun a ha => by rw [hag]; exact h2 a ha⟩
  · obtain ⟨h1, h2⟩ := h pid' q hget''
    exact ⟨h1, fun a ha => by rw [hag]; exact h2 a ha⟩

theorem InvS_checkConsensus (sys : Sys) (pid : String) (now : Nat) (h : InvS sys) :
    InvS (checkConsensus sys pid now).1 := by
  unfold checkConsensus
  cases hg : mapGet sys.proposals pid with
  | none => exact h
  | some p =>
    by_cases hmin : p.votes.length < sys.config.minAgents
    · simpa [hmin] using h
    · simp only [hmin, if_false]
      split
      · split
        · exact InvS_setStatus_finalize sys pid p .accepted now h hg
        · split
          · exact InvS_setStatus_finalize sys pid p .rejected now h hg
          · exact h
      · split
        · exact InvS_setStatus_finalize sys pid p .accepted now h hg
        · split
          · exact InvS_setStatus_finalize sys pid p .rejected now h hg
          · exact h

theorem InvS_vote (sys : Sys) (aid pid : String) (v : JsVal) (c : String) (now : Nat)
    (h : InvS sys) : InvS (vote sys aid pid v c now).1 := by
  unfold vote
  split
  · exact h
  · rename_i hreg
    split
    · exact h
    · rename_i p heq
      split
      · exact h
      · split
        · intro pid' q hget'
          rcases mapGet_mapSet_cases _ _ _ _ _ hget' with ⟨heq2, rfl⟩ | ⟨hne, hget''⟩
          · exact h pid p heq
          · exact h pid' q hget''
        · split
          · exact h
          · apply InvS_checkConsensus
            intro pid' q hget'
            rcases mapGet_mapSet_cases _ _ _ _ _ hget' with ⟨heq2, rfl⟩ | ⟨hne, hget''⟩
            · obtain ⟨h1, h2⟩ := h pid p heq
              constructor
              · exact nodup_keysOf_mapSet _ _ _ h1
              · intro a ha
                rcases (mem_keysOf_mapSet _ _ _ _).mp ha with hmem | rfl
                · exact h2 a hmem
                · exact (mapHas_iff_mem_keys _ _).mp (not_not.mp hreg)
            · exact h pid' q hget''

theorem InvS_addComment (sys : Sys) (aid pid c : String) (now : Nat)
    (h : InvS sys) : InvS (addComment sys aid pid c now).1 := by
  unfold addComment
  split
  · exact h
  · split
    · exact h
    · rename_i p heq
      intro pid' q hget'
      rcases mapGet_mapSet_cases _ _ _ _ _ hget' with ⟨heq2, rfl⟩ | ⟨hne, hget''⟩
      · exact h pid p heq
      · exact h pid' q hget''

theorem InvS_getVoteSuggestion (sys : Sys) (pid : String) (now : Nat)
    (h : InvS sys) : InvS (getVoteSuggestion sys pid now).1 := by
  unfold getVoteSuggestion
  split
  · exact h
  · exact InvS_checkConsensus sys pid now h

theorem InvS_step (sys : Sys) (op : Op) (now : Nat) (h : InvS sys) :
    InvS (step sys op now) := by
  cases op with
  | register a n r w => exact InvS_registerAgent sys a n r w now h
  | create a t d o ty => exact InvS_createProposal sys a t d o ty now h
  | castVote a p v c => exact InvS_vote sys a p v c now h
  | comment a p c => exact InvS_addComment sys a p c now h
  | suggest p => exact InvS_getVoteSuggestion sys p now h

theorem InvS_run (ops : List (Op × Nat)) : ∀ sys, InvS sys → InvS (run sys ops) := by
  induction ops with
  | nil => intro sys h; exact h
  | cons hd rest ih =>
    intro sys h
    obtain ⟨op, now⟩ := hd
    exact ih _ (InvS_step sys op now h)

theorem InvS_initSystem (cfg : Config) : InvS (initSystem cfg) := by
  intro pid p hget
  simp [initSystem, mapGet] at hget

/-- The recorded-vote count of a stored proposal (`votes.size`), `0`
when the proposal does not exist. -/
def votesLenAt (sys : Sys) (pid : String) : Nat :=
  match mapGet sys.proposals pid with
  | some p => p.votes.length
  | none => 0

theorem votesLenAt_le_of_InvS (sys : Sys) (h : InvS sys) (pid : String) :
    votesLenAt sys pid ≤ sys.agents.length := by
  unfold votesLenAt
  cases hg : mapGet sys.proposals pid with
  | none => exact Nat.zero_le _
  | some p =>
    obtain ⟨h1, h2⟩ := h pid p hg
    show p.votes.length ≤ sys.agents.length
    have e1 : p.votes.length = (keysOf p.votes).length := by simp [keysOf]
    have e2 : sys.agents.length = (keysOf sys.agents).length := by simp [keysOf]
    rw [e1, e2]
    exact length_le_of_nodup_subset _ _ h1 h2

/-! ### Claim theorems -/

/-- C10: `registerAgent` always reports success (there is no
`DuplicateAgent` error path), and stores a fresh profile under the id —
reputation reset to the baseline 100 and all three decision counters
reset to zero — silently overwriting any existing profile. -/
theorem registerAgent_overwrites_c10 (sys : Sys) (agentId agentName role : String)
    (weight : Rat) (now : Nat) :
    (registerAgent sys agentId agentName role weight now).2 = true ∧
    mapGet (registerAgent sys agentId agentName role weight now).1.agents agentId
      = some ⟨agentId, agentName, role, weight, 100, 0, 0, 0, now⟩ :=
  ⟨rfl, mapGet_mapSet_self _ _ _⟩

/-- A proposal whose type string is none of the four recognized
values. -/
def pFoo : Proposal :=
  ⟨"prop_x", "t", "d", ["o1"], "foo", "a", .voting, 0, 1000, [], [], mkRat 3 5⟩

/-- C6 counterexample: validating a vote against a proposal of the
unrecognized type `"foo"` returns valid — it does not fail with any
`UnknownProposalType` error, contradicting the claim that such
validation is reported invalid. -/
theorem validateVote_unknown_accepted_c6 :
    validateVote pFoo (JsVal.num 5) = Validation.ok := by decide

/-- C6 (amended): for every proposal whose type is not one of
`single`, `multi`, `ranked`, `yesno`, validating any candidate vote
succeeds — the `switch` has no default case, so unknown types are
accepted permissively. -/
theorem validateVote_unknown_ok_c6 (p : Proposal) (v : JsVal)
    (h1 : p.ptype ≠ "single") (h2 : p.ptype ≠ "multi") (h3 : p.ptype ≠ "ranked")
    (h4 : p.ptype ≠ "yesno") : validateVote p v = .ok := by
  unfold validateVote
  rw [if_neg h1, if_neg h2, if_neg h3, if_neg h4]

/-- Witness for C6 (amended) at the concrete proposal `pFoo`. -/
theorem validateVote_unknown_ok_c6_witness :
    pFoo.ptype ≠ "single" ∧ pFoo.ptype ≠ "multi" ∧ pFoo.ptype ≠ "ranked" ∧
      pFoo.ptype ≠ "yesno" ∧ validateVote pFoo (JsVal.str "x") = .ok :=
  ⟨by decide, by decide, by decide, by decide,
   validateVote_unknown_ok_c6 pFoo (JsVal.str "x") (by decide) (by decide) (by decide)
     (by decide)⟩

/-- C7: on a `single`-type proposal, a numeric vote is rejected with
the bounds-error reason exactly when it is below 0 or at least
`options.length`; every non-numeric vote is accepted; and an
out-of-range numeric vote is never recorded in the proposal's votes
map, whatever the rest of the system state. -/
theorem validateVote_single_bounds_c7 (p : Proposal) (hp : p.ptype = "single") :
    (∀ n : Rat, validateVote p (.num n) =
      (if n < 0 ∨ (p.options.length : Rat) ≤ n then .err "无效的选项索引" else .ok)) ∧
    (∀ v : JsVal, (∀ n : Rat, v ≠ .num n) → validateVote p v = .ok) ∧
    (∀ (sys : Sys) (pid aid c : String) (now : Nat) (n : Rat),
      mapGet sys.proposals pid = some p → (n < 0 ∨ (p.options.length : Rat) ≤ n) →
      (mapGet (vote sys aid pid (.num n) c now).1.proposals pid).map Proposal.votes
        = some p.votes) := by
  refine ⟨?_, ?_, ?_⟩
  · intro n
    simp [validateVote, hp]
  · intro v hv
    unfold validateVote
    rw [if_pos hp]
    cases v with
    | num n => exact absurd rfl (hv n)
    | str s => rfl
    | jsbool b => rfl
    | arr l => rfl
    | undef => rfl
  · intro sys pid aid c now n hget hoob
    unfold vote
    split
    · simp [hget]
    · simp only [hget]
      by_cases hst : p.status ≠ .voting
      · simp [hst, hget]
      · by_cases hd : p.deadline < now
        · simp [hst, hd, mapGet_mapSet_self]
        · have hv : validateVote p (.num n) = .err "无效的选项索引" := by
            simp [validateVote, hp, hoob]
          simp [hst, hd, hv, hget]

/-- Witness for C7: a 3-option `single` proposal, numeric vote `5`. -/
def pSingle3 : Proposal :=
  ⟨"prop_1", "t", "d", ["o1", "o2", "o3"], "single", "a", .voting, 0, 1000, [], [],
    mkRat 3 5⟩

/-- Concrete state holding `pSingle3` and one registered agent. -/
def sysSingle3 : Sys :=
  ⟨[("a", ⟨"a", "A", "member", mkRat 1 1, 100, 0, 0, 0, 0⟩)], [("prop_1", pSingle3)], [], [],
    [], ⟨2, 300000, mkRat 3 5, false⟩, 2, 1⟩

set_option maxRecDepth 4000 in
/-- Witness for C7 at the out-of-range index 5 on a 3-option proposal. -/
theorem validateVote_single_bounds_c7_witness :
    validateVote pSingle3 (.num 5) = .err "无效的选项索引" ∧
    (mapGet (vote sysSingle3 "a" "prop_1" (.num 5) "" 1).1.proposals "prop_1").map
      Proposal.votes = some pSingle3.votes := by
  have h := validateVote_single_bounds_c7 pSingle3 (by decide)
  constructor
  · rw [h.1 5]
    decide
  · exact h.2.2 sysSingle3 "prop_1" "a" "" 1 5 (by decide) (by decide)

/-- C3: a vote cast on a `voting` proposal after its deadline fails
with the expiry error, stamps the proposal `expired`, and records
nothing: the votes map and the global vote log are unchanged. -/
theorem vote_after_deadline_c3 (sys : Sys) (aid pid : String) (v : JsVal) (c : String)
    (now : Nat) (p : Proposal)
    (hreg : mapHas sys.agents aid = true)
    (hget : mapGet sys.proposals pid = some p)
    (hstat : p.status = .voting)
    (hlate : p.deadline < now) :
    (vote sys aid pid v c now).2.success = false ∧
    (vote sys aid pid v c now).2.error = some "投票已截止" ∧
    mapGet (vote sys aid pid v c now).1.proposals pid = some { p with status := .expired } ∧
    (mapGet (vote sys aid pid v c now).1.proposals pid).map Proposal.votes = some p.votes ∧
    (vote sys aid pid v c now).1.votesLog = sys.votesLog := by
  have hcond : ¬ ¬ (mapHas sys.agents aid = true) := by simp [hreg]
  have hst : ¬ (p.status ≠ Status.voting) := by simp [hstat]
  unfold vote
  rw [if_neg hcond]
  simp only [hget]
  rw [if_neg hst, if_pos hlate]
  refine ⟨rfl, rfl, mapGet_mapSet_self _ _ _, ?_, rfl⟩
  rw [mapGet_mapSet_self]
  rfl

set_option maxRecDepth 4000 in
/-- Witness for C3: a late vote on a live concrete proposal. -/
theorem vote_after_deadline_c3_witness :
    (vote sysSingle3 "a" "prop_1" (.num 1) "" 2000).2.error = some "投票已截止" ∧
    mapGet (vote sysSingle3 "a" "prop_1" (.num 1) "" 2000).1.proposals "prop_1"
      = some { pSingle3 with status := .expired } := by
  have h := vote_after_deadline_c3 sysSingle3 "a" "prop_1" (.num 1) "" 2000 pSingle3
    (by decide) (by decide) (by decide) (by decide)
  exact ⟨h.2.1, h.2.2.1⟩

/-- C8: in every state reachable by any sequence of operations from a
fresh system, every proposal's recorded-vote count is at most the size
of the agent registry. -/
theorem votes_size_le_registry_c8 (cfg : Config) (ops : List (Op × Nat)) (pid : String) :
    votesLenAt (run (initSystem cfg) ops) pid ≤ (run (initSystem cfg) ops).agents.length :=
  votesLenAt_le_of_InvS _ (InvS_run ops _ (InvS_initSystem cfg)) pid

/-- The configuration used in the concrete bug scenarios: two agents
minimum, a 300000 ms deadline, a 60 percent threshold. -/
def cfgB : Config := ⟨2, 300000, mkRat 3 5, false⟩

/-- Operations reaching acceptance: register `a` and `b`, create a
`yesno` proposal, both vote yes. -/
def opsAccept : List (Op × Nat) :=
  [(.register "a" "A" "member" (mkRat 1 1), 0),
   (.register "b" "B" "member" (mkRat 1 1), 0),
   (.create "a" "t" "d" [] "yesno", 0),
   (.castVote "a" "prop_1" (.str "yes") "", 1),
   (.castVote "b" "prop_1" (.str "yes") "", 2)]

set_option maxRecDepth 10000 in
/-- C2 (code bug): after the proposal is accepted, exactly one
decision exists and agent `a` has one participation; re-running the
consensus evaluation through the strategy layer's `getVoteSuggestion`
finalizes again — a second decision record appears and the counters
increment a second time, so finalization is not idempotent. -/
theorem finalize_reruns_c2 :
    ((run (initSystem cfgB) opsAccept).decisions.length = 1 ∧
      (mapGet (run (initSystem cfgB) opsAccept).agents "a").map Agent.participatedDecisions
        = some 1) ∧
    ((run (initSystem cfgB) (opsAccept ++ [(.suggest "prop_1", 3)])).decisions.length = 2 ∧
      (mapGet (run (initSystem cfgB)
          (opsAccept ++ [(.suggest "prop_1", 3)])).agents "a").map
        Agent.participatedDecisions = some 2) := by
  with_unfolding_all decide

set_option maxRecDepth 10000 in
/-- C4 (code bug): the same accepted proposal later flips to
`rejected`: after two more agents register (diluting the yes ratio to
one half, below the threshold) and the deadline passes, one
`getVoteSuggestion` call re-runs `checkConsensus`, which overwrites the
terminal `accepted` status with `rejected`. -/
theorem accepted_flips_to_rejected_c4 :
    (mapGet (run (initSystem cfgB) opsAccept).proposals "prop_1").map Proposal.status
      = some .accepted ∧
    (mapGet (run (initSystem cfgB) (opsAccept ++
        [(.register "c" "C" "member" (mkRat 1 1), 3),
         (.register "d" "D" "member" (mkRat 1 1), 3),
         (.suggest "prop_1", 300001)])).proposals "prop_1").map Proposal.status
      = some .rejected := by
  with_unfolding_all decide

theorem filter_noLit_eq (l : List (String × VoteRecord)) :
    (l.filter fun av => ¬ isYesLit av.2.vote ∧ isNoLit av.2.vote)
      = l.filter fun av => isNoLit av.2.vote := by
  apply List.filter_congr
  intro av _
  by_cases hn : isNoLit av.2.vote
  · have hy : ¬ isYesLit av.2.vote := fun hy => isYesLit_not_isNoLit _ hy hn
    simp [hn, hy]
  · simp [hn]

theorem filter_cvNo_eq (l : List (String × VoteRecord)) :
    (l.filter fun av => ¬ isCvYes av.2.vote ∧ isCvNo av.2.vote)
      = l.filter fun av => isCvNo av.2.vote := by
  apply List.filter_congr
  intro av _
  by_cases hn : isCvNo av.2.vote
  · have hy : ¬ isCvYes av.2.vote := fun hy => isCvYes_not_isCvNo _ hy hn
    simp [hn, hy]
  · simp [hn]

/-- C5: the consensus-evaluation tally buckets `yesno`/`single` votes
as yes exactly on the literals `"yes"`/`true`/`0`, as no exactly on
`"no"`/`false`/`1`, as abstain otherwise; buckets a `multi` vote as yes
exactly when its array contains `0` and as no otherwise; and each
bucket's weight is the sum of the registered weights of exactly the
voters in that bucket. -/
theorem tallyVotes_bucketing_c5 (sys : Sys) (p : Proposal)
    (hw : ∀ e ∈ sys.agents, 0 < e.2.weight) :
    ((p.ptype = "yesno" ∨ p.ptype = "single") →
      (tallyVotes sys p).yesVotes = (p.votes.filter fun av => isYesLit av.2.vote).length ∧
      (tallyVotes sys p).yesWeight
        = regWeightSumBy sys (p.votes.filter fun av => isYesLit av.2.vote) ∧
      (tallyVotes sys p).noVotes = (p.votes.filter fun av => isNoLit av.2.vote).length ∧
      (tallyVotes sys p).noWeight
        = regWeightSumBy sys (p.votes.filter fun av => isNoLit av.2.vote) ∧
      (tallyVotes sys p).abstainVotes
        = (p.votes.filter fun av => ¬ isYesLit av.2.vote ∧ ¬ isNoLit av.2.vote).length ∧
      (tallyVotes sys p).abstainWeight
        = regWeightSumBy sys
            (p.votes.filter fun av => ¬ isYesLit av.2.vote ∧ ¬ isNoLit av.2.vote)) ∧
    (p.ptype = "multi" →
      (tallyVotes sys p).yesVotes
        = (p.votes.filter fun av => isMultiYes av.2.vote).length ∧
      (tallyVotes sys p).yesWeight
        = regWeightSumBy sys (p.votes.filter fun av => isMultiYes av.2.vote) ∧
      (tallyVotes sys p).noVotes
        = (p.votes.filter fun av => ¬ isMultiYes av.2.vote).length ∧
      (tallyVotes sys p).noWeight
        = regWeightSumBy sys (p.votes.filter fun av => ¬ isMultiYes av.2.vote)) := by
  constructor
  · intro h
    unfold tallyVotes
    rw [tallyAux_ys sys p.ptype h p.votes Tally.zero, filter_noLit_eq]
    simp [Tally.zero, weightSumBy_eq_regWeightSumBy sys hw]
  · intro h
    unfold tallyVotes
    rw [h, tallyAux_multi sys p.votes Tally.zero]
    simp [Tally.zero, weightSumBy_eq_regWeightSumBy sys hw]

/-- A `yesno` proposal carrying one recorded vote of every bucket
shape. -/
def pMix : Proposal :=
  ⟨"prop_1", "t", "d", [], "yesno", "a", .voting, 0, 300000,
    [("a", ⟨.str "yes", "", 1⟩), ("b", ⟨.jsbool true, "", 1⟩), ("c", ⟨.num 0, "", 1⟩),
     ("d", ⟨.str "no", "", 1⟩), ("e", ⟨.jsbool false, "", 1⟩), ("f", ⟨.num 1, "", 1⟩),
     ("g", ⟨.str "maybe", "", 1⟩), ("h", ⟨.str "yes", "", 1⟩)], [], mkRat 3 5⟩

/-- A registry with varied weights for the voters of `pMix`; `h` is
deliberately left unregistered. -/
def sysMix : Sys :=
  ⟨[("a", ⟨"a", "A", "member", mkRat 1 1, 100, 0, 0, 0, 0⟩),
    ("b", ⟨"b", "B", "member", mkRat 3 2, 100, 0, 0, 0, 0⟩),
    ("c", ⟨"c", "C", "member", mkRat 1 2, 100, 0, 0, 0, 0⟩),
    ("d", ⟨"d", "D", "member", mkRat 2 1, 100, 0, 0, 0, 0⟩),
    ("e", ⟨"e", "E", "member", mkRat 1 4, 100, 0, 0, 0, 0⟩),
    ("f", ⟨"f", "F", "member", mkRat 5 1, 100, 0, 0, 0, 0⟩),
    ("g", ⟨"g", "G", "member", mkRat 7 2, 100, 0, 0, 0, 0⟩)],
   [("prop_1", pMix)], [], [], [], ⟨2, 300000, mkRat 3 5, false⟩, 2, 1⟩

/-- Witness for C5 on `pMix`: the yes and abstain buckets of the
consensus tally equal the filtered registered-weight sums. -/
theorem tallyVotes_bucketing_c5_witness :
    (tallyVotes sysMix pMix).yesWeight
      = regWeightSumBy sysMix (pMix.votes.filter fun av => isYesLit av.2.vote) ∧
    (tallyVotes sysMix pMix).abstainWeight
      = regWeightSumBy sysMix
          (pMix.votes.filter fun av => ¬ isYesLit av.2.vote ∧ ¬ isNoLit av.2.vote) := by
  have h := (tallyVotes_bucketing_c5 sysMix pMix (by decide)).1 (Or.inl rfl)
  exact ⟨h.2.1, h.2.2.2.2.2⟩

/-- Lookup of the weighted count stored for a bucket key, `0` when the
bucket is absent (`weightedCounts[k] || 0`). -/
def lookupWeighted : List (JsVal × Nat × Rat) → JsVal → Rat
  | [], _ => 0
  | (k', _, ws) :: rest, k => if k' = k then ws else lookupWeighted rest k

theorem lookupWeighted_bumpIdx (m : List (JsVal × Nat × Rat)) (k : JsVal) (w : Rat)
    (k' : JsVal) :
    lookupWeighted (bumpIdx m k w) k' =
      if k' = k then lookupWeighted m k' + w else lookupWeighted m k' := by
  induction m with
  | nil =>
    by_cases h : k' = k
    · subst h
      simp [bumpIdx, lookupWeighted]
    · have h2 : ¬ k = k' := fun hh => h hh.symm
      simp [bumpIdx, lookupWeighted, h, h2]
  | cons hd rest ih =>
    obtain ⟨k'', c, ws⟩ := hd
    by_cases hk : k'' = k
    · subst hk
      by_cases h2 : k' = k''
      · subst h2
        simp [bumpIdx, lookupWeighted]
      · have h3 : ¬ k'' = k' := fun hh => h2 hh.symm
        simp [bumpIdx, lookupWeighted, h2, h3]
    · simp only [bumpIdx, if_neg hk]
      by_cases h2 : k'' = k'
      · subst h2
        simp [lookupWeighted, hk]
      · simp [lookupWeighted, h2, ih]

theorem lookupWeighted_zero_entries (m : List (JsVal × Nat × Rat))
    (h : ∀ e ∈ m, e.2.2 = 0) (k : JsVal) : lookupWeighted m k = 0 := by
  induction m with
  | nil => rfl
  | cons hd rest ih =>
    obtain ⟨k'', c, ws⟩ := hd
    simp only [lookupWeighted]
    by_cases hk : k'' = k
    · rw [if_pos hk]
      exact h (k'', c, ws) (List.mem_cons_self _ _)
    · rw [if_neg hk]
      exact ih (fun e he => h e (List.mem_cons_of_mem _ he))

theorem cvInit_idx_zero (p : Proposal) :
    ∀ e ∈ (cvInit p).idxCounts, e.2.2 = 0 := by
  unfold cvInit
  split
  · intro e he
    simp at he
  · split
    · intro e he
      simp only [] at he
      obtain ⟨i, _, rfl⟩ := List.mem_map.mp he
      rfl
    · intro e he
      simp at he

theorem cvAux_cons (sys : Sys) (tp : String) (aid : String) (vr : VoteRecord)
    (rest : List (String × VoteRecord)) (acc : CountResults) :
    cvAux sys tp ((aid, vr) :: rest) acc = cvAux sys tp rest (cvStep sys tp acc aid vr) :=
  rfl

theorem cvAux_idx (sys : Sys) (tp : String) (htp : tp = "single" ∨ tp = "multi")
    (l : List (String × VoteRecord)) :
    ∀ (acc : CountResults) (k : JsVal),
      lookupWeighted (cvAux sys tp l acc).idxCounts k
        = lookupWeighted acc.idxCounts k
          + weightSumBy sys (l.filter fun av => voteIndex av.2.vote = k) := by
  have hyes : ¬ tp = "yesno" := by
    rcases htp with h | h <;> subst h <;> decide
  induction l with
  | nil => intro acc k; simp [cvAux, weightSumBy]
  | cons hd rest ih =>
    intro acc k
    obtain ⟨aid, vr⟩ := hd
    rw [cvAux_cons, ih]
    have hstep : (cvStep sys tp acc aid vr).idxCounts
        = bumpIdx acc.idxCounts (voteIndex vr.vote) (effWeight sys aid) := by
      simp only [cvStep]
      rw [if_neg hyes, if_pos htp]
    rw [hstep, lookupWeighted_bumpIdx]
    by_cases hk : k = voteIndex vr.vote
    · rw [if_pos hk, List.filter_cons_of_pos (by simp [hk]), weightSumBy_cons]
      ring
    · rw [if_neg hk, List.filter_cons_of_neg (by simp; exact fun hh => hk hh.symm)]

theorem cvAux_yesno (sys : Sys) (l : List (String × VoteRecord)) :
    ∀ acc : CountResults,
      (cvAux sys "yesno" l acc).yesW
        = acc.yesW + weightSumBy sys (l.filter fun av => isCvYes av.2.vote) ∧
      (cvAux sys "yesno" l acc).noW
        = acc.noW
          + weightSumBy sys (l.filter fun av => ¬ isCvYes av.2.vote ∧ isCvNo av.2.vote) ∧
      (cvAux sys "yesno" l acc).abstainW
        = acc.abstainW
          + weightSumBy sys
              (l.filter fun av => ¬ isCvYes av.2.vote ∧ ¬ isCvNo av.2.vote) := by
  induction l with
  | nil => intro acc; simp [cvAux, weightSumBy]
  | cons hd rest ih =>
    intro acc
    obtain ⟨aid, vr⟩ := hd
    rw [cvAux_cons]
    obtain ⟨ih1, ih2, ih3⟩ := ih (cvStep sys "yesno" acc aid vr)
    rw [ih1, ih2, ih3]
    by_cases hy : isCvYes vr.vote
    · have hn : ¬ isCvNo vr.vote := isCvYes_not_isCvNo _ hy
      have hstep : (cvStep sys "yesno" acc aid vr).yesW = acc.yesW + effWeight sys aid
          ∧ (cvStep sys "yesno" acc aid vr).noW = acc.noW
          ∧ (cvStep sys "yesno" acc aid vr).abstainW = acc.abstainW := by
        simp only [cvStep, if_true]
        rw [if_pos hy]
        exact ⟨rfl, rfl, rfl⟩
      rw [hstep.1, hstep.2.1, hstep.2.2,
        List.filter_cons_of_pos (by simp [hy]),
        List.filter_cons_of_neg (by simp [hy]),
        List.filter_cons_of_neg (by simp [hy]), weightSumBy_cons]
      refine ⟨by ring, rfl, rfl⟩
    · by_cases hn : isCvNo vr.vote
      · have hstep : (cvStep sys "yesno" acc aid vr).yesW = acc.yesW
            ∧ (cvStep sys "yesno" acc aid vr).noW = acc.noW + effWeight sys aid
            ∧ (cvStep sys "yesno" acc aid vr).abstainW = acc.abstainW := by
          simp only [cvStep, if_true]
          rw [if_neg hy, if_pos hn]
          exact ⟨rfl, rfl, rfl⟩
        rw [hstep.1, hstep.2.1, hstep.2.2,
          List.filter_cons_of_neg (by simp [hy]),
          List.filter_cons_of_pos (by simp [hy, hn]),
          List.filter_cons_of_neg (by simp [hy, hn]), weightSumBy_cons]
        refine ⟨rfl, by ring, rfl⟩
      · have hstep : (cvStep sys "yesno" acc aid vr).yesW = acc.yesW
            ∧ (cvStep sys "yesno" acc aid vr).noW = acc.noW
            ∧ (cvStep sys "yesno" acc aid vr).abstainW = acc.abstainW + effWeight sys aid := by
          simp only [cvStep, if_true]
          rw [if_neg hy, if_neg hn]
          exact ⟨rfl, rfl, rfl⟩
        rw [hstep.1, hstep.2.1, hstep.2.2,
          List.filter_cons_of_neg (by simp [hy]),
          List.filter_cons_of_neg (by simp [hy, hn]),
          List.filter_cons_of_pos (by simp [hy, hn]), weightSumBy_cons]
        refine ⟨rfl, rfl, by ring⟩

/-- C9: for every proposal and any registry of (positively) weighted
agents, each weighted sum reported by `countVotes` equals the sum of
the registered weights (1 for a voter absent from the registry) of
exactly the votes in that bucket: the `yes`/`no`/`abstain` buckets for
`yesno` proposals, and the per-vote-index buckets for `single` and
`multi` proposals. -/
theorem countVotes_weighted_sums_c9 (sys : Sys) (p : Proposal)
    (hw : ∀ e ∈ sys.agents, 0 < e.2.weight) :
    (p.ptype = "yesno" →
      (countVotes sys p).yesW
        = regWeightSumBy sys (p.votes.filter fun av => isCvYes av.2.vote) ∧
      (countVotes sys p).noW
        = regWeightSumBy sys (p.votes.filter fun av => isCvNo av.2.vote) ∧
      (countVotes sys p).abstainW
        = regWeightSumBy sys
            (p.votes.filter fun av => ¬ isCvYes av.2.vote ∧ ¬ isCvNo av.2.vote)) ∧
    ((p.ptype = "single" ∨ p.ptype = "multi") →
      ∀ k : JsVal,
        lookupWeighted (countVotes sys p).idxCounts k
          = regWeightSumBy sys (p.votes.filter fun av => voteIndex av.2.vote = k)) := by
  constructor
  · intro h
    unfold countVotes
    rw [h]
    obtain ⟨h1, h2, h3⟩ := cvAux_yesno sys p.votes (cvInit p)
    rw [h1, h2, h3, filter_cvNo_eq]
    have hz : (cvInit p).yesW = 0 ∧ (cvInit p).noW = 0 ∧ (cvInit p).abstainW = 0 := by
      unfold cvInit
      split <;> exact ⟨rfl, rfl, rfl⟩
    rw [hz.1, hz.2.1, hz.2.2]
    simp [weightSumBy_eq_regWeightSumBy sys hw]
  · intro h k
    unfold countVotes
    rw [cvAux_idx sys p.ptype h p.votes (cvInit p) k,
      lookupWeighted_zero_entries (cvInit p).idxCounts (cvInit_idx_zero p) k,
      weightSumBy_eq_regWeightSumBy sys hw]
    exact zero_add _

/-- A `single` proposal, two options, with votes on both indices plus
an out-of-registry voter. -/
def pIdx : Proposal :=
  ⟨"prop_1", "t", "d", ["o1", "o2"], "single", "a", .voting, 0, 300000,
    [("a", ⟨.num 0, "", 1⟩), ("b", ⟨.num 1, "", 1⟩), ("c", ⟨.num 0, "", 1⟩),
     ("z", ⟨.num 0, "", 1⟩)], [], mkRat 3 5⟩

/-- Registry for `pIdx` with varied weights (voter `z` unregistered). -/
def sysIdx : Sys :=
  ⟨[("a", ⟨"a", "A", "member", mkRat 1 2, 100, 0, 0, 0, 0⟩),
    ("b", ⟨"b", "B", "member", mkRat 3 1, 100, 0, 0, 0, 0⟩),
    ("c", ⟨"c", "C", "member", mkRat 5 4, 100, 0, 0, 0, 0⟩)],
   [("prop_1", pIdx)], [], [], [], ⟨2, 300000, mkRat 3 5, false⟩, 2, 1⟩

/-- Witness for C9: the weighted count of option index `0` on `pIdx`
equals the registered-weight sum of its voters. -/
theorem countVotes_weighted_sums_c9_witness :
    lookupWeighted (countVotes sysIdx pIdx).idxCounts (JsVal.num 0)
      = regWeightSumBy sysIdx (pIdx.votes.filter fun av => voteIndex av.2.vote = JsVal.num 0)
      :=
  (countVotes_weighted_sums_c9 sysIdx pIdx (by decide)).2 (Or.inl rfl) (JsVal.num 0)

/-- C1: for a `yesno` proposal still in `voting`, with a positively
weighted registry: when enough votes are in (`minAgents ≤ votes.size`),
consensus evaluation sets the status to `accepted` exactly when the sum
of the registered weights of the yes votes, divided by the number of
registered agents (not the number of votes cast), is at least the
proposal's required consensus; with fewer votes the state is unchanged
and the evaluator reports insufficient votes. -/
theorem checkConsensus_yesno_c1 (sys : Sys) (pid : String) (now : Nat) (p : Proposal)
    (hget : mapGet sys.proposals pid = some p)
    (htype : p.ptype = "yesno") (hstat : p.status = Status.voting)
    (hw : ∀ e ∈ sys.agents, 0 < e.2.weight)
    (hmin : 1 ≤ sys.config.minAgents) (_hagents : 0 < sys.agents.length) :
    (sys.config.minAgents ≤ p.votes.length →
      ((mapGet (checkConsensus sys pid now).1.proposals pid).map Proposal.status
          = some Status.accepted
        ↔ p.requiredConsensus
            ≤ regWeightSumBy sys (p.votes.filter fun av => isYesLit av.2.vote)
              / (sys.agents.length : Rat))) ∧
    (p.votes.length < sys.config.minAgents →
      (checkConsensus sys pid now).1 = sys ∧
      (checkConsensus sys pid now).2 = ConsensusStatus.insufficient) := by
  have htally := tallyAux_ys sys p.ptype (Or.inl htype) p.votes Tally.zero
  have hyw : (tallyVotes sys p).yesWeight
      = weightSumBy sys (p.votes.filter fun av => isYesLit av.2.vote) := by
    unfold tallyVotes
    rw [htally]
    simp [Tally.zero]
  have hywr : (tallyVotes sys p).yesWeight
      = regWeightSumBy sys (p.votes.filter fun av => isYesLit av.2.vote) := by
    rw [hyw, weightSumBy_eq_regWeightSumBy sys hw]
  constructor
  · intro hge
    have hnotlt : ¬ (p.votes.length < sys.config.minAgents) := not_lt.mpr hge
    have hne : p.votes ≠ [] := by
      intro hnil
      rw [hnil] at hge
      simp only [List.length_nil] at hge
      omega
    have htw : 0 < (tallyVotes sys p).yesWeight + (tallyVotes sys p).noWeight
        + (tallyVotes sys p).abstainWeight := by
      unfold tallyVotes
      rw [htally]
      simp only [Tally.zero, zero_add]
      rw [weightSum_partition]
      exact weightSumBy_pos sys hw p.votes hne
    unfold checkConsensus
    simp only [hget]
    rw [if_neg hnotlt, if_pos htw]
    by_cases hr : p.requiredConsensus
        ≤ (tallyVotes sys p).yesWeight / (sys.agents.length : Rat)
    · rw [if_pos hr]
      apply iff_of_true
      · rw [finalizeDecision_proposals, mapGet_mapSet_self]
        rfl
      · rw [← hywr]
        exact hr
    · rw [if_neg hr]
      apply iff_of_false
      · by_cases hd : p.deadline < now
        · rw [if_pos hd, finalizeDecision_proposals, mapGet_mapSet_self]
          simp
        · rw [if_neg hd]
          simp [hget, hstat]
      · rw [← hywr]
        exact hr
  · intro hlt
    unfold checkConsensus
    simp only [hget]
    rw [if_pos hlt]
    exact ⟨rfl, rfl⟩

/-- Scenario A of the specification: a `yesno` proposal with yes votes
from `a` (weight 1) and `b` (weight 3/2), not yet evaluated. -/
def pScenA : Proposal :=
  ⟨"prop_1", "t", "d", [], "yesno", "a", .voting, 0, 300000,
    [("a", ⟨.str "yes", "", 1⟩), ("b", ⟨.str "yes", "", 2⟩)], [], mkRat 3 5⟩

/-- Scenario A registry: three agents with weights 1, 3/2, 1. -/
def sysScenA : Sys :=
  ⟨[("a", ⟨"a", "A", "member", mkRat 1 1, 100, 0, 0, 0, 0⟩),
    ("b", ⟨"b", "B", "member", mkRat 3 2, 100, 0, 0, 0, 0⟩),
    ("c", ⟨"c", "C", "member", mkRat 1 1, 100, 0, 0, 0, 0⟩)],
   [("prop_1", pScenA)], [], [], [], ⟨2, 300000, mkRat 3 5, false⟩, 2, 1⟩

set_option maxRecDepth 10000 in
/-- Witness for C1 on Scenario A: the weighted yes ratio 5/6 meets the
3/5 threshold, so evaluation sets the proposal `accepted`. -/
theorem checkConsensus_yesno_c1_witness :
    (mapGet (checkConsensus sysScenA "prop_1" 5).1.proposals "prop_1").map Proposal.status
      = some Status.accepted := by
  have h := (checkConsensus_yesno_c1 sysScenA "prop_1" 5 pScenA (by decide) (by decide)
    (by decide) (by decide) (by decide) (by decide)).1 (by decide)
  exact h.mpr (by with_unfolding_all decide)
